import Mathlib

/-!
A shallow embedding of the image-resizer batch pipeline of
`src/src/app/page.tsx` (the `processImages` / `downloadAll` functions and the
`ImageFile` record), together with theorems settling the specified
properties of the pipeline.  Definitions are translated from the source;
the parts the source delegates to the browser (the codec, the resampling
filter, the base64 payload) are modelled from the specification and say so
in their doc comments.
-/

namespace ImageResizer

/-- Pixel dimensions, as read off `imgEl` and assigned to `canvas.width` and
`canvas.height` in `processImages`. -/
structure Dimensions where
  width : Nat
  height : Nat
deriving DecidableEq

/-- A decoded pixel bitmap with known dimensions (the `Image` element's pixel
data once `onload` has fired). -/
structure Bitmap where
  width : Nat
  height : Nat
  pixels : List Nat
deriving DecidableEq

/-- One uploaded file: its name, its byte length (`file.size`) and, when the
bytes are a well-formed image, the bitmap the browser decodes from them.
`none` models malformed bytes, for which the `Image` element never fires
`onload`. -/
structure SourceFile where
  name : String
  size : Nat
  bitmap : Option Bitmap
deriving DecidableEq

/-- The `ImageFile` record of `src/src/app/page.tsx` (lines 8-14): the `File`
reference, the preview object URL, the optional processed data URL (kept here
as the encoded bytes its base64 payload carries) and the two sizes. -/
structure ImageFile where
  file : SourceFile
  preview : String
  processed : Option (List Nat)
  originalSize : Nat
  processedSize : Option Nat
deriving DecidableEq

/-- The `settings` state (lines 19-23): `maxWidth`, `quality` and the output
MIME type string. -/
structure Settings where
  maxWidth : Nat
  quality : Nat
  format : String
deriving DecidableEq

/-- The initial settings of the `useState` call (lines 19-23). -/
def defaultSettings : Settings := ⟨1920, 80, "image/jpeg"⟩

/-- `onDrop` (lines 25-32): wraps an accepted file, creating a preview object
URL for it and recording its byte length as `originalSize`. -/
def onDropImage (f : SourceFile) : ImageFile :=
  ⟨f, "blob:" ++ f.name, none, f.size, none⟩

/-- JavaScript `Math.round` on a finite rational: the floor of `x + 1/2`
(halves round toward positive infinity).  It is computed as an integer
floor-division on the numerator and denominator so that it evaluates by
kernel reduction; `jsRound_eq_floor` below states the usual form. -/
def jsRound (x : ℚ) : ℤ :=
  (2 * x.num + (x.den : ℤ)) / (2 * (x.den : ℤ))

/-- Lines 49-57 of `processImages`: the target dimensions assigned to the
canvas.  In the resize branch the code computes
`height * maxWidth / width` as an exact quotient and the `canvas.height`
setter truncates it (the HTML unsigned-long conversion), which for
nonnegative values is the floor, i.e. `Nat` division. -/
def computeTargetDimensions (source : Dimensions) (maxWidth : Nat) : Dimensions :=
  if source.width > maxWidth then
    ⟨maxWidth, source.height * maxWidth / source.width⟩
  else
    source

/-- Modelled from the spec: the resampling performed by `ctx.drawImage`
(line 60) is implemented by the browser, not by code under `src/`; the spec
leaves the filter an implementation choice, so a nearest-neighbour resample
to the target dimensions is used.  No settled property depends on the pixel
values. -/
def resample (b : Bitmap) (w h : Nat) : Bitmap :=
  ⟨w, h, (List.range (w * h)).map (fun i =>
    b.pixels.getD ((i / w * b.height / h) * b.width + (i % w * b.width / w)) 0)⟩

/-- Lines 62-63: the ternary selecting the output MIME type; any string other
than the png and webp types falls through to `image/jpeg`. -/
def outputFormat (fmt : String) : String :=
  if fmt = "image/png" then "image/png"
  else if fmt = "image/webp" then "image/webp"
  else "image/jpeg"

/-- Modelled from the spec: the Codec Adapter's encode step
(`canvas.toDataURL(outputFormat, quality)`, line 65) is implemented by the
browser, not by code under `src/`.  Per the spec the quality factor affects
only the lossy formats (JPEG, WEBP) and has no effect on PNG output; the
encoded bytes record a format tag, for lossy formats the quality, and the
dimensions and pixels. -/
def encode (b : Bitmap) (fmt : String) (q : ℚ) : List Nat :=
  if fmt = "image/png" then
    0 :: b.width :: b.height :: b.pixels
  else if fmt = "image/webp" then
    1 :: q.num.toNat :: q.den :: b.width :: b.height :: b.pixels
  else
    2 :: q.num.toNat :: q.den :: b.width :: b.height :: b.pixels

/-- Modelled from the spec: `canvas.toDataURL` returns the encoded bytes as a
padded base64 payload (the text-encoded representation the spec warns about),
whose character count for `n` bytes is `4 * ceil(n / 3)`. -/
def base64Length (n : Nat) : Nat :=
  4 * ((n + 2) / 3)

/-- Lines 45-77 of `processImages`: one item's work.  The bitmap is decoded
by the `Image` element (`none` means `onload` never fires, so the per-item
promise never resolves), the canvas is sized by `computeTargetDimensions`,
drawn, encoded, and the processed size is derived from the base64 payload
length as `Math.round(base64.length * 3 / 4)` (lines 67-68).  On success the
input record is spread into the result with `processed` and `processedSize`
added (lines 70-74).  The exact rationals `settings.quality / 100` and
`base64.length * 3 / 4` are written with `mkRat` so that they evaluate by
kernel reduction; `quality_arg_eq` and `size_arg_eq` below state the
quotient forms of the source. -/
def processOne (s : Settings) (img : ImageFile) : Option ImageFile :=
  match img.file.bitmap with
  | none => none
  | some bmp =>
    let dims := computeTargetDimensions ⟨bmp.width, bmp.height⟩ s.maxWidth
    let canvasBmp := resample bmp dims.width dims.height
    let bytes := encode canvasBmp (outputFormat s.format) (mkRat s.quality 100)
    let reported := (jsRound (mkRat (3 * (base64Length bytes.length : ℤ)) 4)).toNat
    some { img with processed := some bytes, processedSize := some reported }

/-- Lines 43-79: `Promise.all` over the per-item promises.  It settles with
the list of results in source order exactly when every per-item promise
resolves; if any item never resolves the whole batch never settles, which is
modelled as `none`. -/
def processImages (s : Settings) : List ImageFile → Option (List ImageFile)
  | [] => some []
  | img :: rest =>
    (processOne s img).bind (fun out =>
      (processImages s rest).bind (fun outs => some (out :: outs)))

/-- Lines 90-91 of `downloadAll`: the filename extension for the configured
format. -/
def extFor (fmt : String) : String :=
  if fmt = "image/png" then "png"
  else if fmt = "image/webp" then "webp"
  else "jpg"

/-- Line 92: the `name.replace` call with the pattern matching a final dot
followed by one or more characters none of which is a dot or a slash; when
the pattern matches, the matched suffix is removed, otherwise the name is
unchanged. -/
def stripLastExt (name : String) : String :=
  let rev := name.toList.reverse
  let ext := rev.takeWhile (fun c => c != '.')
  match rev.dropWhile (fun c => c != '.') with
  | '.' :: stem =>
    if ext.isEmpty || ext.contains '/' then name else String.mk stem.reverse
  | _ => name

/-- Line 92: the generated archive entry name
(stem + `_resized.` + extension). -/
def entryName (s : Settings) (fileName : String) : String :=
  stripLastExt fileName ++ "_resized." ++ extFor s.format

/-- `zip.file(name, data)` (line 94): JSZip keys entries by name, so a second
entry under an existing name replaces the first; a fresh name is appended. -/
def zipInsert : List (String × List Nat) → String → List Nat → List (String × List Nat)
  | [], n, c => [(n, c)]
  | e :: es, n, c => if e.1 = n then (n, c) :: es else e :: zipInsert es n c

/-- Lines 88-96 of `downloadAll`: one `forEach` step - items carrying a
processed result contribute an entry, the rest are skipped. -/
def zipStep (s : Settings) (acc : List (String × List Nat)) (img : ImageFile) :
    List (String × List Nat) :=
  match img.processed with
  | some bytes => zipInsert acc (entryName s img.file.name) bytes
  | none => acc

/-- Lines 85-98 of `downloadAll`: the name-to-bytes mapping of the generated
zip archive. -/
def buildZip (s : Settings) (imgs : List ImageFile) : List (String × List Nat) :=
  imgs.foldl (zipStep s) []

/-- The entry names the successfully processed items of a batch give rise to,
in source order. -/
def successNames (s : Settings) (imgs : List ImageFile) : List String :=
  (imgs.filter (fun i => i.processed.isSome)).map (fun i => entryName s i.file.name)

/-- One step of first-occurrence deduplication: keep a known name, append a
fresh one. -/
def keyStep (ks : List String) (n : String) : List String :=
  if n ∈ ks then ks else ks ++ [n]

/-- First-occurrence deduplication of a list of names. -/
def distinctNames (ns : List String) : List String :=
  ns.foldl keyStep []

/-- Round-half-up of `num / den`, the spec's rounding policy for the
Resizer. -/
def roundHalfUp (num den : Nat) : Nat :=
  (2 * num + den) / (2 * den)

/-- The Resizer as the spec words it: unchanged when the source is narrow
enough, otherwise width capped at `maxWidth` and height rounded half-up with
a minimum of 1.  Stated from the spec's words, for comparison with
`computeTargetDimensions`, which is taken from the source. -/
def specTargetDimensions (source : Dimensions) (maxWidth : Nat) : Dimensions :=
  if source.width ≤ maxWidth then source
  else ⟨maxWidth, max 1 (roundHalfUp (source.height * maxWidth) source.width)⟩

/-- Lines 413-417 (the per-item size caption): the reduction percentage
`Math.round((1 - processedSize / originalSize) * 100)`. -/
def reductionPercent (o p : Nat) : ℤ :=
  jsRound ((1 - (p : ℚ) / (o : ℚ)) * 100)

/-- A small well-formed source file with a 2 by 2 bitmap. -/
def goodFile (nm : String) : SourceFile :=
  ⟨nm, 10, some ⟨2, 2, [1, 2, 3, 4]⟩⟩

/-- Malformed bytes: the browser never fires `onload` for them. -/
def brokenFile : SourceFile :=
  ⟨"broken.png", 10, none⟩

/-- Settings selecting the PNG output format. -/
def pngSettings : Settings := ⟨1920, 80, "image/png"⟩

/-- A 1 by 1 source whose PNG encoding is 4 bytes long. -/
def tinyFile : SourceFile :=
  ⟨"t.png", 7, some ⟨1, 1, [9]⟩⟩

/-- Two well-formed sources with the same filename stem and different pixel
data. -/
def batchDup : List ImageFile :=
  [onDropImage ⟨"a.png", 5, some ⟨1, 1, [1]⟩⟩, onDropImage ⟨"a.jpg", 5, some ⟨1, 1, [2]⟩⟩]

/-- Another same-stem pair, with different pixel data again. -/
def batchDupB : List ImageFile :=
  [onDropImage ⟨"b.png", 5, some ⟨1, 1, [3]⟩⟩, onDropImage ⟨"b.txt", 5, some ⟨1, 1, [4]⟩⟩]

/-- One already-processed item, as it sits in the state consumed by
`downloadAll`. -/
def soloC : ImageFile :=
  ⟨⟨"c.png", 5, none⟩, "blob:c.png", some [3], 5, some 3⟩

/-- A well-formed 2 by 1 source, dropped into the batch. -/
def pngImage : ImageFile :=
  onDropImage ⟨"p.png", 20, some ⟨2, 1, [5, 6]⟩⟩

/-- `jsRound` is the floor of `x + 1/2`, i.e. JavaScript `Math.round`. -/
theorem jsRound_eq_floor (x : ℚ) : jsRound x = Int.floor (x + 1 / 2) := by
  have hd : ((x.den : ℚ)) ≠ 0 := by
    exact_mod_cast x.den_nz
  have hx : (x.num : ℚ) = x * (x.den : ℚ) := (div_eq_iff hd).mp (Rat.num_div_den x)
  have hd2 : (((2 * x.den : ℕ)) : ℚ) ≠ 0 := by
    exact_mod_cast Nat.mul_ne_zero two_ne_zero x.den_nz
  have harg : x + 1 / 2 = (((2 * x.num + (x.den : ℤ) : ℤ) : ℚ)) / (((2 * x.den : ℕ) : ℚ)) := by
    rw [eq_div_iff hd2]
    push_cast
    linear_combination (-2 : ℚ) * hx
  rw [jsRound, harg, Rat.floor_intCast_div_natCast]
  push_cast
  rfl

/-- `mkRat q 100` is the exact value of `settings.quality / 100`. -/
theorem quality_arg_eq (q : Nat) : mkRat (q : ℤ) 100 = (q : ℚ) / 100 := by
  rw [Rat.mkRat_eq_divInt, Rat.divInt_eq_div]
  push_cast
  ring

/-- `mkRat (3 * n) 4` is the exact value of `base64.length * 3 / 4`. -/
theorem size_arg_eq (n : Nat) : mkRat (3 * (n : ℤ)) 4 = (n : ℚ) * 3 / 4 := by
  rw [Rat.mkRat_eq_divInt, Rat.divInt_eq_div]
  push_cast
  ring

/-- C1 counterexample: for the 3000 by 1500 source and `maxWidth = 1919` the
exact scaled height is 959.5; the code truncates it to 959 while the claimed
round-half-up with minimum 1 gives 960, so the computed target dimensions are
not the claimed ones. -/
theorem resizer_not_round_half_up :
    computeTargetDimensions ⟨3000, 1500⟩ 1919 ≠ specTargetDimensions ⟨3000, 1500⟩ 1919 := by
  decide

/-- C1 (amended): for every source with positive width, if the source width
is at most `maxWidth` the target dimensions are the source dimensions
unchanged; otherwise the target width is `maxWidth` and the target height is
the floor (truncation, not round-half-up, and with no minimum of 1) of
`source.height * maxWidth / source.width`, characterized here as the unique
integer within one of the exact quotient from below. -/
theorem resizer_floor_height (source : Dimensions) (maxWidth : Nat)
    (hw : 0 < source.width) :
    (source.width ≤ maxWidth → computeTargetDimensions source maxWidth = source)
  ∧ (maxWidth < source.width →
      (computeTargetDimensions source maxWidth).width = maxWidth
    ∧ (computeTargetDimensions source maxWidth).height * source.width
        ≤ source.height * maxWidth
    ∧ source.height * maxWidth
        < ((computeTargetDimensions source maxWidth).height + 1) * source.width) := by
  constructor
  · intro h
    rw [computeTargetDimensions, if_neg (by omega)]
  · intro h
    rw [computeTargetDimensions, if_pos h]
    refine ⟨rfl, Nat.div_mul_le_self _ _, ?_⟩
    have hq := Nat.div_add_mod (source.height * maxWidth) source.width
    have hr := Nat.mod_lt (source.height * maxWidth) hw
    calc source.height * maxWidth
        = source.width * (source.height * maxWidth / source.width)
            + source.height * maxWidth % source.width := hq.symm
      _ < source.width * (source.height * maxWidth / source.width) + source.width := by
            omega
      _ = (source.height * maxWidth / source.width + 1) * source.width := by
            ring

/-- C1 witness: the amended claim instantiated at the 3000 by 1500 source
with `maxWidth = 1919`. -/
theorem resizer_floor_height_witness :
    0 < (3000 : Nat)
  ∧ (computeTargetDimensions ⟨3000, 1500⟩ 1919).width = 1919
  ∧ (computeTargetDimensions ⟨3000, 1500⟩ 1919).height * 3000 ≤ 1500 * 1919
  ∧ 1500 * 1919 < ((computeTargetDimensions ⟨3000, 1500⟩ 1919).height + 1) * 3000 :=
  ⟨by decide,
   ((resizer_floor_height ⟨3000, 1500⟩ 1919 (by decide)).2 (by decide)).1,
   ((resizer_floor_height ⟨3000, 1500⟩ 1919 (by decide)).2 (by decide)).2.1,
   ((resizer_floor_height ⟨3000, 1500⟩ 1919 (by decide)).2 (by decide)).2.2⟩

/-- C4: for every source with positive width, the computed target width is at
most `maxWidth` or equal to the source width (the resize never upscales), and
the target dimensions preserve the source aspect ratio to within one pixel:
the target height is within one of `source.height * target.width /
source.width`, stated multiplied out over the naturals. -/
theorem no_upscale_aspect_preserved (source : Dimensions) (maxWidth : Nat)
    (hw : 0 < source.width) :
    ((computeTargetDimensions source maxWidth).width ≤ maxWidth
      ∨ (computeTargetDimensions source maxWidth).width = source.width)
  ∧ (computeTargetDimensions source maxWidth).height * source.width
      ≤ source.height * (computeTargetDimensions source maxWidth).width
  ∧ source.height * (computeTargetDimensions source maxWidth).width
      < (computeTargetDimensions source maxWidth).height * source.width + source.width := by
  by_cases h : source.width > maxWidth
  · rw [computeTargetDimensions, if_pos h]
    refine ⟨Or.inl (le_refl _), Nat.div_mul_le_self _ _, ?_⟩
    have hq := Nat.div_add_mod (source.height * maxWidth) source.width
    have hr := Nat.mod_lt (source.height * maxWidth) hw
    calc source.height * maxWidth
        = source.width * (source.height * maxWidth / source.width)
            + source.height * maxWidth % source.width := hq.symm
      _ < source.width * (source.height * maxWidth / source.width) + source.width := by
            omega
      _ = source.height * maxWidth / source.width * source.width + source.width := by
            ring
  · rw [computeTargetDimensions, if_neg h]
    exact ⟨Or.inr rfl, le_refl _, Nat.lt_add_of_pos_right hw⟩

/-- C4 witness: the invariant instantiated at the 3000 by 2000 source with
`maxWidth = 1920`. -/
theorem no_upscale_aspect_preserved_witness :
    0 < (3000 : Nat)
  ∧ (((computeTargetDimensions ⟨3000, 2000⟩ 1920).width ≤ 1920
      ∨ (computeTargetDimensions ⟨3000, 2000⟩ 1920).width = 3000)
  ∧ (computeTargetDimensions ⟨3000, 2000⟩ 1920).height * 3000
      ≤ 2000 * (computeTargetDimensions ⟨3000, 2000⟩ 1920).width
  ∧ 2000 * (computeTargetDimensions ⟨3000, 2000⟩ 1920).width
      < (computeTargetDimensions ⟨3000, 2000⟩ 1920).height * 3000 + 3000) :=
  ⟨by decide, no_upscale_aspect_preserved ⟨3000, 2000⟩ 1920 (by decide)⟩

/-- C2: on a batch of three sources whose second item is malformed bytes, the
`Promise.all` of `processImages` never settles (the per-item promise only
resolves in `onload` and has no error callback), so no result sequence of any
length is produced - in particular no length-3 sequence with a failure marker
at index 1 exists; the well-formed first and third items are never reported
either. -/
theorem batch_never_settles_on_malformed :
    processImages defaultSettings
      [onDropImage (goodFile "a.png"), onDropImage brokenFile, onDropImage (goodFile "c.png")]
      = none := rfl

/-- C3: `processImages` performs no configuration validation: with
`quality = 150`, outside the claimed range, the single well-formed item is
still processed (the out-of-range quality is passed on to the encoder as
150/100 = 3/2) and a processed result is produced; no configuration error is
raised and nothing aborts. -/
theorem config_not_validated :
    processImages ⟨1920, 150, "image/jpeg"⟩ [onDropImage (goodFile "b.png")] =
      some [⟨goodFile "b.png", "blob:b.png", some [2, 3, 2, 2, 2, 1, 2, 3, 4], 10, some 9⟩] := rfl

/-- C5: two sources with the same filename stem are both processed
successfully, yet the archive ends with a single entry `a_resized.jpg`
holding the second item's bytes - the first item's entry has been silently
overwritten instead of being disambiguated. -/
theorem archive_entry_overwritten :
    (processImages defaultSettings batchDup).map List.length = some 2
  ∧ (processImages defaultSettings batchDup).map (buildZip defaultSettings)
      = some [("a_resized.jpg", [2, 4, 5, 1, 1, 2])] :=
  ⟨rfl, rfl⟩

/-- C6: for a processed item whose encoded output is 4 bytes long, the
reported processed size is `Math.round(base64Length * 3 / 4) = 6`, not the
exact byte length 4: the size derived from the base64 text over-reports
whenever the byte length is not a multiple of 3. -/
theorem reported_size_not_byte_accurate :
    (processOne pngSettings (onDropImage tinyFile)).map
        (fun o => (o.processedSize, o.processed.map List.length))
      = some (some 6, some 4)
  ∧ (6 : Nat) ≠ 4 :=
  ⟨rfl, by decide⟩

/-- C7 counterexample: with original size 1000 and processed size 1001 the
output is larger than the source, yet the reported value
`Math.round((1 - 1001/1000) * 100) = Math.round(-0.1)` is 0, not negative. -/
theorem reduction_zero_on_marginal_growth :
    1000 < 1001 ∧ ¬ reductionPercent 1000 1001 < 0 := by
  refine ⟨by decide, ?_⟩
  have harg : (1 - ((1001 : ℕ) : ℚ) / ((1000 : ℕ) : ℚ)) * 100 = mkRat (-100) 1000 := by
    rw [Rat.mkRat_eq_divInt, Rat.divInt_eq_div]
    push_cast
    norm_num
  rw [reductionPercent, harg]
  decide

/-- C7 (amended): for every original size `o > 0` and processed size `p`, the
reported reduction is exactly `round((1 - p/o) * 100)` with round-half-up at
halves, characterized by `2*o*r <= 200*(o - p) + o < 2*o*r + 2*o`; the value
is surfaced as computed, never clamped, and it is negative exactly when
`200*p > 201*o`, i.e. when the output is more than half a percent larger
than the source - for smaller growth the rounded value is 0, not negative. -/
theorem reduction_percent_char (o p : Nat) (ho : 0 < o) :
    2 * (o : ℤ) * reductionPercent o p ≤ 200 * ((o : ℤ) - (p : ℤ)) + (o : ℤ)
  ∧ 200 * ((o : ℤ) - (p : ℤ)) + (o : ℤ)
      < 2 * (o : ℤ) * reductionPercent o p + 2 * (o : ℤ)
  ∧ (reductionPercent o p < 0 ↔ 201 * (o : ℤ) < 200 * (p : ℤ)) := by
  have hoQ : (0 : ℚ) < (o : ℚ) := by exact_mod_cast ho
  have hne : ((o : ℚ)) ≠ 0 := ne_of_gt hoQ
  have hdef : reductionPercent o p = Int.floor ((1 - (p : ℚ) / (o : ℚ)) * 100 + 1 / 2) := by
    rw [reductionPercent, jsRound_eq_floor]
  have h1 : ((reductionPercent o p : ℚ)) ≤ (1 - (p : ℚ) / (o : ℚ)) * 100 + 1 / 2 := by
    rw [hdef]
    exact Int.floor_le _
  have h2 : (1 - (p : ℚ) / (o : ℚ)) * 100 + 1 / 2 < ((reductionPercent o p : ℚ)) + 1 := by
    rw [hdef]
    exact Int.lt_floor_add_one _
  have key : 2 * (o : ℚ) * ((1 - (p : ℚ) / (o : ℚ)) * 100 + 1 / 2)
      = 200 * ((o : ℚ) - (p : ℚ)) + (o : ℚ) := by
    field_simp
    ring
  have hpos : (0 : ℚ) < 2 * (o : ℚ) := by positivity
  have hA : 2 * (o : ℚ) * ((reductionPercent o p : ℚ)) ≤ 200 * ((o : ℚ) - (p : ℚ)) + (o : ℚ) := by
    have h3 := mul_le_mul_of_nonneg_left h1 (le_of_lt hpos)
    linarith [key]
  have hB : 200 * ((o : ℚ) - (p : ℚ)) + (o : ℚ)
      < 2 * (o : ℚ) * ((reductionPercent o p : ℚ)) + 2 * (o : ℚ) := by
    have h3 := mul_lt_mul_of_pos_left h2 hpos
    nlinarith [key]
  refine ⟨by exact_mod_cast hA, by exact_mod_cast hB, ?_, ?_⟩
  · intro hneg
    have hr1 : ((reductionPercent o p : ℚ)) ≤ -1 := by
      have : reductionPercent o p ≤ -1 := by omega
      exact_mod_cast this
    have hmul : 2 * (o : ℚ) * ((reductionPercent o p : ℚ)) ≤ 2 * (o : ℚ) * (-1) :=
      mul_le_mul_of_nonneg_left hr1 (le_of_lt hpos)
    have : 201 * (o : ℚ) < 200 * (p : ℚ) := by linarith [hB, hmul]
    exact_mod_cast this
  · intro hgt
    have hgtQ : 201 * (o : ℚ) < 200 * (p : ℚ) := by exact_mod_cast hgt
    have hneg : 2 * (o : ℚ) * ((reductionPercent o p : ℚ)) < 0 := by linarith [hA]
    have hq : ((reductionPercent o p : ℚ)) < 0 := by
      by_contra hge
      push_neg at hge
      have := mul_nonneg (le_of_lt hpos) hge
      linarith
    exact_mod_cast hq

/-- C7 witness: the characterization instantiated at original size 100 and
processed size 160 (output 60 percent larger, reported value negative). -/
theorem reduction_percent_char_witness :
    0 < (100 : Nat)
  ∧ (2 * (100 : ℤ) * reductionPercent 100 160 ≤ 200 * ((100 : ℤ) - 160) + 100
  ∧ 200 * ((100 : ℤ) - 160) + 100 < 2 * (100 : ℤ) * reductionPercent 100 160 + 2 * 100
  ∧ (reductionPercent 100 160 < 0 ↔ 201 * (100 : ℤ) < 200 * 160)) :=
  ⟨by decide, reduction_percent_char 100 160 (by decide)⟩

/-- Inserting into the zip mapping keeps the key list unchanged when the key
is already present and appends it otherwise. -/
theorem zipInsert_map_fst (es : List (String × List Nat)) (n : String) (c : List Nat) :
    (zipInsert es n c).map Prod.fst = keyStep (es.map Prod.fst) n := by
  induction es with
  | nil => simp [zipInsert, keyStep]
  | cons e es ih =>
    by_cases h : e.1 = n
    · simp [zipInsert, keyStep, h]
    · by_cases h2 : n ∈ es.map Prod.fst
      · simp [zipInsert, keyStep, h, h2, ih, Ne.symm h]
      · simp [zipInsert, keyStep, h, h2, ih, Ne.symm h]

/-- The key list of the zip fold is the first-occurrence fold of the success
entry names. -/
theorem buildZip_fold_fst (s : Settings) (imgs : List ImageFile) :
    ∀ acc : List (String × List Nat),
      (imgs.foldl (zipStep s) acc).map Prod.fst
        = (successNames s imgs).foldl keyStep (acc.map Prod.fst) := by
  induction imgs with
  | nil =>
    intro acc
    simp [successNames]
  | cons img rest ih =>
    intro acc
    cases hp : img.processed with
    | none =>
      have hs : successNames s (img :: rest) = successNames s rest := by
        simp [successNames, List.filter_cons, hp]
      simp only [List.foldl_cons, zipStep, hp]
      rw [ih, hs]
    | some bytes =>
      have hs : successNames s (img :: rest)
          = entryName s img.file.name :: successNames s rest := by
        simp [successNames, List.filter_cons, hp]
      simp only [List.foldl_cons, zipStep, hp]
      rw [ih, zipInsert_map_fst, hs, List.foldl_cons]

/-- Membership in `zipInsert`: an entry was already there or is the inserted
one. -/
theorem mem_zipInsert (es : List (String × List Nat)) (n : String) (c : List Nat)
    (e : String × List Nat) (h : e ∈ zipInsert es n c) : e ∈ es ∨ e = (n, c) := by
  induction es with
  | nil => simpa [zipInsert] using h
  | cons f es ih =>
    by_cases hf : f.1 = n
    · simp only [zipInsert, if_pos hf, List.mem_cons] at h
      rcases h with h | h
      · right
        exact h
      · left
        exact List.mem_cons_of_mem f h
    · simp only [zipInsert, if_neg hf, List.mem_cons] at h
      rcases h with h | h
      · left
        exact h ▸ List.mem_cons_self f es
      · rcases ih h with h2 | h2
        · left
          exact List.mem_cons_of_mem f h2
        · right
          exact h2

/-- Every entry of the zip fold comes from the accumulator or from a
processed item of the list. -/
theorem mem_buildZip_fold (s : Settings) (imgs : List ImageFile) :
    ∀ (acc : List (String × List Nat)) (e : String × List Nat),
      e ∈ imgs.foldl (zipStep s) acc →
      e ∈ acc ∨ ∃ img, img ∈ imgs ∧ img.processed = some e.2
        ∧ e.1 = entryName s img.file.name := by
  induction imgs with
  | nil =>
    intro acc e h
    left
    simpa using h
  | cons img rest ih =>
    intro acc e h
    simp only [List.foldl_cons] at h
    rcases ih (zipStep s acc img) e h with h2 | h2
    · cases hp : img.processed with
      | none =>
        left
        simpa [zipStep, hp] using h2
      | some bytes =>
        rcases mem_zipInsert acc (entryName s img.file.name) bytes e
            (by simpa [zipStep, hp] using h2) with h3 | h3
        · left
          exact h3
        · right
          subst h3
          exact ⟨img, List.mem_cons_self img rest, hp, rfl⟩
    · right
      obtain ⟨i, hi, hb, hn⟩ := h2
      exact ⟨i, List.mem_cons_of_mem img hi, hb, hn⟩

/-- C8 counterexample: in a batch of two successfully processed sources with
the same filename stem the archive has one entry while there are two
successes, so the entry count does not equal the success count. -/
theorem archive_count_mismatch :
    (processImages defaultSettings batchDupB).map (fun outs =>
        ((buildZip defaultSettings outs).length,
         (outs.filter (fun i => i.processed.isSome)).length))
      = some (1, 2)
  ∧ (1 : Nat) ≠ 2 :=
  ⟨rfl, by decide⟩

/-- C8 (amended): the archive's entry names are exactly the distinct entry
names derived from the successfully processed items, in order of first
occurrence - so the entry count equals the number of distinct names, which
equals the number of successes only when no two successes share a stem (a
later success under an already used name overwrites the earlier entry) - and
every entry's name and bytes come from some processed item: failures
contribute no entry. -/
theorem archive_entries_distinct_names (s : Settings) (imgs : List ImageFile) :
    (buildZip s imgs).map Prod.fst = distinctNames (successNames s imgs)
  ∧ ∀ e ∈ buildZip s imgs,
      ∃ img, img ∈ imgs ∧ img.processed = some e.2 ∧ e.1 = entryName s img.file.name := by
  constructor
  · have h := buildZip_fold_fst s imgs []
    simpa [buildZip, distinctNames] using h
  · intro e he
    rcases mem_buildZip_fold s imgs [] e (by simpa [buildZip] using he) with h | h
    · simp at h
    · exact h

/-- C8 witness: the amended claim instantiated at a one-item batch. -/
theorem archive_entries_distinct_names_witness :
    (buildZip defaultSettings [soloC]).map Prod.fst
        = distinctNames (successNames defaultSettings [soloC])
  ∧ ∃ img, img ∈ [soloC] ∧ img.processed = some [3]
      ∧ "c_resized.jpg" = entryName defaultSettings img.file.name := by
  have t := archive_entries_distinct_names defaultSettings [soloC]
  exact ⟨t.1, t.2 ("c_resized.jpg", [3]) (by decide)⟩

/-- C9: with the PNG output format, processing the same item at any two
quality factors in [10, 100] yields the same result - same encoded bytes and
same reported size - because the modelled encoder ignores the quality factor
for the lossless format. -/
theorem png_output_quality_independent (mw q1 q2 : Nat) (img : ImageFile)
    (h1 : 10 ≤ q1) (h2 : q1 ≤ 100) (h3 : 10 ≤ q2) (h4 : q2 ≤ 100) :
    processOne ⟨mw, q1, "image/png"⟩ img = processOne ⟨mw, q2, "image/png"⟩ img := by
  cases hb : img.file.bitmap with
  | none => simp [processOne, hb]
  | some bmp => simp [processOne, hb, outputFormat, encode]

/-- C9 witness: the PNG quality independence at quality 10 versus 90 on a
concrete 2 by 1 source. -/
theorem png_output_quality_independent_witness :
    (10 ≤ 10 ∧ 10 ≤ 100 ∧ 10 ≤ 90 ∧ 90 ≤ 100)
  ∧ processOne ⟨1920, 10, "image/png"⟩ pngImage = processOne ⟨1920, 90, "image/png"⟩ pngImage :=
  ⟨by decide,
   png_output_quality_independent 1920 10 90 pngImage (by decide) (by decide) (by decide)
     (by decide)⟩

/-- A successful `processOne` spreads the input record: it changes nothing
but `processed` and `processedSize`, which it fills. -/
theorem processOne_fields (s : Settings) (img out : ImageFile)
    (h : processOne s img = some out) :
    out.file = img.file ∧ out.preview = img.preview ∧ out.originalSize = img.originalSize
  ∧ out.processed.isSome = true ∧ out.processedSize.isSome = true := by
  cases hb : img.file.bitmap with
  | none => simp [processOne, hb] at h
  | some bmp =>
    simp only [processOne, hb, Option.some.injEq] at h
    subst h
    simp

/-- C10: whenever a batch run settles, the output list has the same length as
the input list and, at every index, the `file` reference, `preview` and
`originalSize` are unchanged from the input item; processing only fills the
`processed` and `processedSize` fields. -/
theorem process_preserves_fields (s : Settings) (imgs out : List ImageFile)
    (h : processImages s imgs = some out) :
    out.length = imgs.length
  ∧ ∀ i : Nat, ∀ hi : i < imgs.length, ∀ ho : i < out.length,
      (out.get ⟨i, ho⟩).file = (imgs.get ⟨i, hi⟩).file
    ∧ (out.get ⟨i, ho⟩).preview = (imgs.get ⟨i, hi⟩).preview
    ∧ (out.get ⟨i, ho⟩).originalSize = (imgs.get ⟨i, hi⟩).originalSize
    ∧ (out.get ⟨i, ho⟩).processed.isSome = true
    ∧ (out.get ⟨i, ho⟩).processedSize.isSome = true := by
  induction imgs generalizing out with
  | nil =>
    simp only [processImages, Option.some.injEq] at h
    subst h
    exact ⟨rfl, fun i hi _ => absurd hi (Nat.not_lt_zero i)⟩
  | cons img rest ih =>
    simp only [processImages, Option.bind_eq_some, Option.some.injEq] at h
    obtain ⟨o, ho1, outs, ho2, rfl⟩ := h
    obtain ⟨hf, hp, hs, hps, hpss⟩ := processOne_fields s img o ho1
    obtain ⟨hlen, hidx⟩ := ih outs ho2
    refine ⟨by simp [hlen], ?_⟩
    intro i hi hoi
    cases i with
    | zero => exact ⟨hf, hp, hs, hps, hpss⟩
    | succ n =>
      have hi2 : n < rest.length := by simpa using hi
      have ho2n : n < outs.length := by simpa using hoi
      exact hidx n hi2 ho2n

/-- C10 witness: a one-item batch settles, and the theorem yields the length
equality and the field preservation at index 0. -/
theorem process_preserves_fields_witness :
    processImages defaultSettings [onDropImage (goodFile "a.png")] =
      some [⟨goodFile "a.png", "blob:a.png", some [2, 4, 5, 2, 2, 1, 2, 3, 4], 10, some 9⟩]
  ∧ ([(⟨goodFile "a.png", "blob:a.png", some [2, 4, 5, 2, 2, 1, 2, 3, 4], 10,
        some 9⟩ : ImageFile)]).length = [onDropImage (goodFile "a.png")].length
  ∧ (([(⟨goodFile "a.png", "blob:a.png", some [2, 4, 5, 2, 2, 1, 2, 3, 4], 10,
        some 9⟩ : ImageFile)]).get ⟨0, by decide⟩).file
      = ([onDropImage (goodFile "a.png")].get ⟨0, by decide⟩).file := by
  have h : processImages defaultSettings [onDropImage (goodFile "a.png")] =
      some [⟨goodFile "a.png", "blob:a.png", some [2, 4, 5, 2, 2, 1, 2, 3, 4], 10, some 9⟩] := rfl
  have t := process_preserves_fields defaultSettings [onDropImage (goodFile "a.png")] _ h
  exact ⟨h, t.1, (t.2 0 (by decide) (by decide)).1⟩

end ImageResizer
